import Mathlib

/-!
Verification of the `react-trace-chart` TraceGraph component.

The TypeScript source (src/src/components/TraceGraph.tsx and the unnamed
variants under src/unnamed/) is shallowly embedded below.  JavaScript numbers
are modelled as rationals (ℚ); `Record<string, T>` objects and `Map`s are
modelled as association lists with first-match lookup (keys are written at
most once on the modelled code paths, so first-match lookup agrees with the
JS semantics); `Set<string>` is modelled as `Finset String`; the SVG path
string produced by `buildCurvePath` is modelled by the structure holding the
four control points that the string interpolates (the string
`M s C c1, c2, e` is determined by, and determines, those points).
-/

/-- Association-list lookup, modelling JS object / Map key access. -/
def lookupStr {β : Type} : List (String × β) → String → Option β
  | [], _ => none
  | (k, v) :: rest, key => if k = key then some v else lookupStr rest key

/-- TraceSpan (TraceGraph.tsx lines 4-11; part_000 lines 4-11).
Optional fields become `Option`. -/
structure TraceSpan where
  id : String
  label : String
  outboundServiceId : Option String := none
  outboundSpanRef : Option String := none
  durationMs : Option ℚ := none
  isError : Option Bool := none
deriving DecidableEq, Repr

/-- Metrics record of a TraceServiceNode (TraceGraph.tsx lines 18-22). -/
structure Metrics where
  avgLatencyMs : Option ℚ := none
  errorRatePct : Option ℚ := none
  throughputRps : Option ℚ := none
deriving DecidableEq, Repr

/-- TraceServiceNode (TraceGraph.tsx lines 13-23). -/
structure TraceServiceNode where
  id : String
  label : String
  spans : List TraceSpan
  accentColor : Option String := none
  metrics : Option Metrics := none
deriving DecidableEq, Repr

/-- TraceEdge (TraceGraph.tsx lines 25-30).  The source fields `from`/`to`
are Lean keywords and are embedded as `fromId`/`toId`. -/
structure TraceEdge where
  fromId : String
  toId : String
  edgeId : Option String := none
  label : Option String := none
deriving DecidableEq, Repr

/-- Box (TraceGraph.tsx lines 39-46): a measured rectangle. -/
structure Box where
  centerX : ℚ
  centerY : ℚ
  left : ℚ
  right : ℚ
  top : ℚ
  bottom : ℚ
deriving DecidableEq, Repr

/-- GeometryState (TraceGraph.tsx lines 48-52). -/
structure GeometryState where
  services : List (String × Box)
  spans : List (String × Box)
  viewport : Option (ℚ × ℚ)
deriving DecidableEq, Repr

/-- A 2-d point used by buildCurvePath. -/
structure Point where
  x : ℚ
  y : ℚ
deriving DecidableEq, Repr

/-- The cubic curve encoded by the SVG path string
`M start C ctrl1, ctrl2, finish` that buildCurvePath produces. -/
structure CurvePath where
  start : Point
  ctrl1 : Point
  ctrl2 : Point
  finish : Point
deriving DecidableEq, Repr

/-- buildCurvePath (TraceGraph.tsx lines 60-63):
`deltaX = Math.max(Math.abs(end.x - start.x) * 0.5, 60)`, control points are
offset horizontally by `deltaX` with zero vertical offset. -/
def buildCurvePath (s e : Point) : CurvePath :=
  let deltaX := max (|e.x - s.x| * (1 / 2)) 60
  { start := s
    ctrl1 := { x := s.x + deltaX, y := s.y }
    ctrl2 := { x := e.x - deltaX, y := e.y }
    finish := e }

/-- makeSpanKey (TraceGraph.tsx line 65). -/
def makeSpanKey (serviceId spanId : String) : String :=
  serviceId ++ ":" ++ spanId

/-- toggleService (TraceGraph.tsx lines 74-88): copy the previous expanded
set, delete the id if present, add it otherwise. -/
def toggleService (serviceId : String) (prev : Finset String) : Finset String :=
  if serviceId ∈ prev then prev.erase serviceId else insert serviceId prev

/-- A rendered service-to-service connector (TraceGraph.tsx lines 176-194). -/
structure EdgeConnector where
  id : String
  path : CurvePath
  label : String
deriving DecidableEq, Repr

/-- serviceEdges (TraceGraph.tsx lines 176-194): map each edge to a connector
when both endpoint boxes exist, drop it otherwise (`filter(Boolean)`). -/
def serviceEdges (edges : List TraceEdge) (geomServices : List (String × Box)) :
    List EdgeConnector :=
  edges.filterMap fun edge =>
    match lookupStr geomServices edge.fromId, lookupStr geomServices edge.toId with
    | some f, some t =>
        some { id := edge.edgeId.getD (edge.fromId ++ "->" ++ edge.toId)
               path := buildCurvePath { x := f.right, y := f.centerY }
                 { x := t.left, y := t.centerY }
               label := edge.label.getD (edge.fromId ++ " to " ++ edge.toId) }
    | _, _ => none

/-- A span-level connector (TraceGraph.tsx line 197; part_000 line 214). -/
structure SpanConnector where
  id : String
  path : CurvePath
  sourceLabel : String
deriving DecidableEq, Repr

/-- spanConnectors of the basic variant (TraceGraph.tsx lines 196-222):
only spans of expanded services with a truthy outboundServiceId and both
boxes present contribute.  `forEach` + `push` is rendered as flatMap /
filterMap, which yields the same list in the same order. -/
def spanConnectorsSimple (services : List TraceServiceNode)
    (expanded : Finset String) (geom : GeometryState) : List SpanConnector :=
  services.flatMap fun service =>
    if service.id ∈ expanded then
      service.spans.filterMap fun span =>
        match span.outboundServiceId with
        | none => none
        | some target =>
          if target = "" then none  -- JS truthiness: empty string is falsy
          else
            match lookupStr geom.spans (makeSpanKey service.id span.id),
                lookupStr geom.services target with
            | some spanBox, some targetBox =>
                some { id := service.id ++ ":" ++ span.id ++ "->" ++ target
                       sourceLabel := span.label
                       path := buildCurvePath
                         { x := spanBox.right + 16, y := spanBox.centerY }
                         { x := targetBox.left - 16, y := targetBox.centerY } }
            | _, _ => none
    else []

/-- The latency part of the service metadata line (TraceGraph.tsx lines
299-304): `metrics?.avgLatencyMs ? avgLatencyMs.toFixed(1) + " ms" :
"latency n/a"`.  `shown v` stands for the text `v.toFixed(1) + " ms"`;
`na` stands for the literal placeholder `latency n/a`.  The JS conditional
tests the number for truthiness, so `0` selects the placeholder. -/
inductive LatencyText where
  | shown (value : ℚ)
  | na
deriving DecidableEq, Repr

/-- Which latency text the metadata line renders for a service. -/
def serviceMetaLatency (service : TraceServiceNode) : LatencyText :=
  match service.metrics with
  | none => .na
  | some m =>
    match m.avgLatencyMs with
    | none => .na
    | some v => if v = 0 then .na else .shown v

/-- The throughput span of the metrics block (TraceGraph.tsx lines 307-311):
rendered with `toFixed(0)` when `metrics` is present and `throughputRps` is
truthy; `some v` means the number `v` is rendered, `none` means the span is
absent. -/
def serviceMetaThroughput (service : TraceServiceNode) : Option ℚ :=
  match service.metrics with
  | none => none
  | some m =>
    match m.throughputRps with
    | none => none
    | some v => if v = 0 then none else some v

/-- Position (TraceGraph.tsx lines 846-849). -/
structure Position where
  x : ℚ
  y : ℚ
deriving DecidableEq, Repr

/-- The drag-state record (TraceGraph.tsx lines 935-943). -/
structure DragState where
  id : String
  pointerId : ℤ
  startX : ℚ
  startY : ℚ
  originX : ℚ
  originY : ℚ
  moved : Bool
deriving DecidableEq, Repr

/-- The pointer-event fields read by handlePointerMove. -/
structure PointerEventData where
  pointerId : ℤ
  clientX : ℚ
  clientY : ℚ
deriving DecidableEq, Repr

/-- Writing key `id` in a positions record, modelling
`{ ...prev, [id]: pos }`: lookup of `id` yields `pos`, every other key is
unchanged. -/
def setPosition (positions : List (String × Position)) (id : String)
    (pos : Position) : List (String × Position) :=
  (id, pos) :: positions

/-- handlePointerMove (TraceGraph.tsx lines 1007-1025): ignore the event
unless its pointer id matches the captured drag; otherwise store
`origin + (client - start) / zoom` for the dragged node, with no clamping.
(The handler also sets `drag.moved = true`; that flag does not affect the
stored positions and is omitted here.) -/
def handlePointerMove (drag : Option DragState) (event : PointerEventData)
    (zoom : ℚ) (positions : List (String × Position)) :
    List (String × Position) :=
  match drag with
  | none => positions
  | some d =>
    if d.pointerId = event.pointerId then
      let deltaX := (event.clientX - d.startX) / zoom
      let deltaY := (event.clientY - d.startY) / zoom
      setPosition positions d.id
        { x := d.originX + deltaX, y := d.originY + deltaY }
    else positions

/-- State of the span-connector builder of the debug variant
(part_000 lines 213-226): the connectors built so far together with the
global "already added" id set. -/
abbrev ConnState := List SpanConnector × List String

/-- pushConnector (part_000 lines 218-226): add the connector unless its id
is already in the identity set. -/
def pushConnector (st : ConnState) (id srcLabel : String) (s e : Point) :
    ConnState :=
  if id ∈ st.2 then st
  else (st.1 ++ [{ id := id, path := buildCurvePath s e, sourceLabel := srcLabel }],
        st.2 ++ [id])

/-- The `ref.split(":")` of the source (part_000 line 236): split the string
at every colon, keeping empty pieces, exactly as the JS String.split does. -/
def splitColon (s : String) : List String :=
  (s.data.splitOn ':').map (fun cs => String.mk cs)

/-- The fall-through tail of pass 1 (part_000 lines 251-261): when no
span-to-span connector was pushed, an expanded span with a truthy
outboundServiceId whose service box exists pushes a span-to-service
connector. -/
def outgoingServiceFallback (geom : GeometryState) (svcId : String)
    (span : TraceSpan) (spanBox : Box) (st : ConnState) : ConnState :=
  match span.outboundServiceId with
  | none => st
  | some target =>
    if target = "" then st
    else
      match lookupStr geom.services target with
      | none => st
      | some targetBox =>
          pushConnector st (svcId ++ ":" ++ span.id ++ "->" ++ target)
            span.label
            { x := spanBox.right + 16, y := spanBox.centerY }
            { x := targetBox.left - 16, y := targetBox.centerY }

/-- Pass 1 body for one span (part_000 lines 231-262): an expanded span with
geometry first tries its outboundSpanRef (truthy, exactly two
colon-separated parts, target span box present - push and return);
every failure of that chain falls through to the outboundServiceId
fallback, exactly as the source control flow does. -/
def outgoingSpanStep (geom : GeometryState) (svcId : String) (span : TraceSpan)
    (st : ConnState) : ConnState :=
  match lookupStr geom.spans (makeSpanKey svcId span.id) with
  | none => st
  | some spanBox =>
    match span.outboundSpanRef with
    | none => outgoingServiceFallback geom svcId span spanBox st
    | some ref =>
      if ref = "" then outgoingServiceFallback geom svcId span spanBox st
      else
        match splitColon ref with
        | [a, b] =>
          match lookupStr geom.spans (makeSpanKey a b) with
          | some targetSpanBox =>
              pushConnector st (svcId ++ ":" ++ span.id ++ "->" ++ ref)
                span.label
                { x := spanBox.right + 16, y := spanBox.centerY }
                { x := targetSpanBox.left - 12, y := targetSpanBox.centerY }
          | none => outgoingServiceFallback geom svcId span spanBox st
        | _ => outgoingServiceFallback geom svcId span spanBox st

/-- Pass 2 body for one source span (part_000 lines 267-286): a span anywhere
whose outboundSpanRef resolves to a span with geometry in an expanded service
pushes an inbound connector, sourced from the span box or, failing that, the
owning service box. -/
def incomingSpanStep (expanded : Finset String) (geom : GeometryState)
    (srcSvcId : String) (srcSpan : TraceSpan) (st : ConnState) : ConnState :=
  match srcSpan.outboundSpanRef with
  | none => st
  | some ref =>
    if ref = "" then st
    else
      match splitColon ref with
      | [a, b] =>
        let targetKey := makeSpanKey a b
        match lookupStr geom.spans targetKey with
        | none => st
        | some targetBox =>
          if a ∈ expanded then
            match lookupStr geom.spans (makeSpanKey srcSvcId srcSpan.id) with
            | some srcBox =>
                pushConnector st
                  (srcSvcId ++ ":" ++ srcSpan.id ++ "->" ++ targetKey ++ ":IN")
                  srcSpan.label
                  { x := srcBox.right + 16, y := srcBox.centerY }
                  { x := targetBox.left - 12, y := targetBox.centerY }
            | none =>
                match lookupStr geom.services srcSvcId with
                | some srcBox =>
                    pushConnector st
                      (srcSvcId ++ ":" ++ srcSpan.id ++ "->" ++ targetKey ++ ":IN")
                      srcSpan.label
                      { x := srcBox.right + 16, y := srcBox.centerY }
                      { x := targetBox.left - 12, y := targetBox.centerY }
                | none => st
          else st
      | _ => st

/-- Pass 3 body for one edge (part_000 lines 289-307): a service edge whose
target service is expanded fans out into one connector per target span with
geometry, sourced from the origin service box. -/
def edgeFanStep (services : List TraceServiceNode) (expanded : Finset String)
    (geom : GeometryState) (edge : TraceEdge) (st : ConnState) : ConnState :=
  match services.find? (fun s => s.id = edge.toId) with
  | none => st
  | some targetService =>
    if edge.toId ∈ expanded then
      match lookupStr geom.services edge.fromId with
      | none => st
      | some sourceBox =>
        targetService.spans.foldl
          (fun st2 tspan =>
            match lookupStr geom.spans (makeSpanKey edge.toId tspan.id) with
            | none => st2
            | some targetSpanBox =>
                pushConnector st2 (edge.fromId ++ "->" ++ edge.toId ++ ":" ++ tspan.id)
                  (edge.label.getD (edge.fromId ++ " → " ++ edge.toId))
                  { x := sourceBox.right, y := sourceBox.centerY }
                  { x := targetSpanBox.left - 12, y := targetSpanBox.centerY })
          st
    else st

/-- The final builder state of the debug variant's spanConnectors
(part_000 lines 213-320): the three passes run in order over one shared
ConnState. -/
def spanConnectorsState (services : List TraceServiceNode)
    (edges : List TraceEdge) (expanded : Finset String) (geom : GeometryState) :
    ConnState :=
  let st1 := services.foldl
    (fun st svc =>
      if svc.id ∈ expanded then
        svc.spans.foldl (fun st2 span => outgoingSpanStep geom svc.id span st2) st
      else st)
    (([], []) : ConnState)
  let st2 := services.foldl
    (fun st svc =>
      svc.spans.foldl (fun s2 sp => incomingSpanStep expanded geom svc.id sp s2) st)
    st1
  edges.foldl (fun st edge => edgeFanStep services expanded geom edge st) st2

/-- spanConnectors of the debug variant (part_000 lines 213-320): the
connector list of the final builder state. -/
def spanConnectorsFull (services : List TraceServiceNode)
    (edges : List TraceEdge) (expanded : Finset String) (geom : GeometryState) :
    List SpanConnector :=
  (spanConnectorsState services edges expanded geom).1

/-- The invariant the "already added" identity set maintains: the set lists
exactly the built connectors' ids, in order, without duplicates. -/
def connInv (st : ConnState) : Prop :=
  st.1.map (fun c => c.id) = st.2 ∧ st.2.Nodup

/-- The fields of a DOMRect read by the measure pass. -/
structure MeasuredRect where
  left : ℚ
  right : ℚ
  top : ℚ
  bottom : ℚ
  width : ℚ
  height : ℚ
deriving DecidableEq, Repr

/-- Service box arithmetic of measure (TraceGraph.tsx lines 118-126). -/
def serviceBoxOf (hostRect rect : MeasuredRect) : Box :=
  { centerX := rect.left - hostRect.left + rect.width / 2
    centerY := rect.top - hostRect.top + rect.height / 2
    left := rect.left - hostRect.left
    right := rect.right - hostRect.left
    top := rect.top - hostRect.top
    bottom := rect.bottom - hostRect.top }

/-- Span box arithmetic of measure (TraceGraph.tsx lines 139-147); note the
span centerX uses `rect.right`. -/
def spanBoxOf (hostRect rect : MeasuredRect) : Box :=
  { centerX := rect.right - hostRect.left
    centerY := rect.top - hostRect.top + rect.height / 2
    left := rect.left - hostRect.left
    right := rect.right - hostRect.left
    top := rect.top - hostRect.top
    bottom := rect.bottom - hostRect.top }

/-- The geometry computed by one measure pass (TraceGraph.tsx lines 109-155):
service boxes for every service whose element is mounted, span boxes only for
spans of expanded services, viewport from the host rect.  The mounted
elements' rects are the inputs `serviceRects` / `spanRects` (an absent key
models a null ref). -/
def measureGeometry (services : List TraceServiceNode) (expanded : Finset String)
    (hostRect : MeasuredRect) (serviceRects spanRects : List (String × MeasuredRect)) :
    GeometryState :=
  { services := services.filterMap fun svc =>
      (lookupStr serviceRects svc.id).map fun r => (svc.id, serviceBoxOf hostRect r)
    spans := services.flatMap fun svc =>
      if svc.id ∈ expanded then
        svc.spans.filterMap fun span =>
          (lookupStr spanRects (makeSpanKey svc.id span.id)).map fun r =>
            (makeSpanKey svc.id span.id, spanBoxOf hostRect r)
      else []
    viewport := some (hostRect.width, hostRect.height) }

/-- The published geometry state.  `generation` models JS object identity:
`setGeometry` is always called with a freshly constructed object literal, so
each call publishes a new reference, modelled by bumping the generation. -/
structure PublishedGeometry where
  geom : GeometryState
  generation : ℕ
deriving DecidableEq, Repr

/-- One run of measure (TraceGraph.tsx lines 102-158): if the container ref
is null, return without publishing; otherwise unconditionally call
setGeometry with a fresh snapshot - the source performs no comparison with
the previous snapshot. -/
def measureStep (host : Option MeasuredRect) (services : List TraceServiceNode)
    (expanded : Finset String) (serviceRects spanRects : List (String × MeasuredRect))
    (prev : PublishedGeometry) : PublishedGeometry :=
  match host with
  | none => prev
  | some hostRect =>
    { geom := measureGeometry services expanded hostRect serviceRects spanRects
      generation := prev.generation + 1 }

/-- The reverse adjacency of buildInitialPositions (TraceGraph.tsx lines
863-869): the list of source ids of the edges into `serviceId`, in edge
order, `[]` when the id has no incoming edges (the `?? []` default). -/
def incomingList (edges : List TraceEdge) (serviceId : String) : List String :=
  (edges.filter fun e => e.toId = serviceId).map (·.fromId)

/-- The memo map of computeLevel, written at most once per key. -/
abbrev LevelMemo := List (String × ℤ)

/-- `Math.max(...)` over the (always nonempty at its call site) list of
parent levels plus one; the `[]` case is unreachable in use. -/
def maxOfList : List ℤ → ℤ
  | [] => 0
  | x :: xs => xs.foldl max x

mutual

/-- computeLevel (TraceGraph.tsx lines 871-893), with the JS call stack made
explicit as `fuel`: memo hit returns the memoized level; an id on the current
recursion path returns 0 (cycle guard, not memoized); an id with no incoming
edges memoizes and returns 0; otherwise the parents' levels are computed with
the id pushed on the guard set, and `Math.max(parents.map(l => l + 1))` is
memoized and returned.  `none` means the modelled call stack was exhausted;
`computeLevel_isSome` below shows the canonical fuel never exhausts it. -/
def computeLevel (edges : List TraceEdge) :
    (fuel : ℕ) → String → List String → LevelMemo → Option (ℤ × LevelMemo)
  | 0, _, _, _ => none
  | fuel + 1, serviceId, stack, memo =>
    match lookupStr memo serviceId with
    | some v => some (v, memo)
    | none =>
      if serviceId ∈ stack then some (0, memo)
      else
        match incomingList edges serviceId with
        | [] => some (0, (serviceId, 0) :: memo)
        | p :: ps =>
          match computeParents edges fuel (p :: ps) (serviceId :: stack) memo with
          | none => none
          | some (vals, memo') =>
            let level := maxOfList vals
            some (level, (serviceId, level) :: memo')
termination_by fuel _ _ _ => (fuel, 0)

/-- The `parents.map(parent => computeLevel(parent, stack) + 1)` traversal,
threading the shared memo left to right. -/
def computeParents (edges : List TraceEdge) :
    (fuel : ℕ) → List String → List String → LevelMemo →
    Option (List ℤ × LevelMemo)
  | _, [], _, memo => some ([], memo)
  | fuel, parent :: rest, stack, memo =>
    match computeLevel edges fuel parent stack memo with
    | none => none
    | some (v, m1) =>
      match computeParents edges fuel rest stack m1 with
      | none => none
      | some (vs, m2) => some ((v + 1) :: vs, m2)
termination_by fuel parents _ _ => (fuel, parents.length + 1)

end

/-- The set of ids that can be pushed on the recursion-guard stack: ids with
at least one incoming edge. -/
def edgeTargets (edges : List TraceEdge) : List String :=
  (edges.map (·.toId)).dedup

/-- The fuel that `serviceLevels` below runs computeLevel with; sufficient by
`computeLevel_isSome`. -/
def levelFuel (edges : List TraceEdge) : ℕ :=
  (edgeTargets edges).length + 1

/-- The level-assignment phase of buildInitialPositions (TraceGraph.tsx lines
871-901): computeLevel is called once per service in input order with an
empty guard stack, the memo map threading through all calls; the per-service
levels (used to bucket the services) are collected together with the final
memo. -/
def serviceLevels (services : List TraceServiceNode) (edges : List TraceEdge) :
    Option (List (String × ℤ) × LevelMemo) :=
  services.foldlM
    (fun acc svc =>
      (computeLevel edges (levelFuel edges) svc.id [] acc.2).map
        fun r => (acc.1 ++ [(svc.id, r.1)], r.2))
    (([], []) : List (String × ℤ) × LevelMemo)

/-! Concrete fixtures used by the counterexample and witness theorems. -/

/-- A concrete measured box. -/
def sampleBox : Box :=
  { centerX := 5, centerY := 5, left := 0, right := 10, top := 0, bottom := 10 }

/-- Span `S1` of service `A` carrying both an outbound span reference
`B:S2` and an outbound service reference `B`. -/
def spanBothRefs : TraceSpan :=
  { id := "S1", label := "s1", outboundServiceId := some "B",
    outboundSpanRef := some "B:S2" }

/-- Span `S1` of service `A` carrying only the outbound span reference
`B:S2`. -/
def spanRefOnly : TraceSpan :=
  { id := "S1", label := "s1", outboundSpanRef := some "B:S2" }

/-- Service `A` whose single span has both outbound references. -/
def svcBothRefs : TraceServiceNode :=
  { id := "A", label := "A", spans := [spanBothRefs] }

/-- Service `A` whose single span has only the outbound span reference. -/
def svcRefOnly : TraceServiceNode :=
  { id := "A", label := "A", spans := [spanRefOnly] }

/-- Service `B` holding the target span `S2`. -/
def svcB : TraceServiceNode :=
  { id := "B", label := "B", spans := [{ id := "S2", label := "s2" }] }

/-- Geometry with `B` collapsed: service boxes for `A` and `B`, a span box
for `A:S1` only. -/
def geomBCollapsed : GeometryState :=
  { services := [("A", sampleBox), ("B", sampleBox)],
    spans := [("A:S1", sampleBox)], viewport := none }

/-- Geometry with both services expanded: span boxes for `A:S1` and `B:S2`. -/
def geomBothExpanded : GeometryState :=
  { services := [("A", sampleBox), ("B", sampleBox)],
    spans := [("A:S1", sampleBox), ("B:S2", sampleBox)], viewport := none }

/-- The curve both duplicate connectors of the C5 counterexample carry. -/
def dupCurve : CurvePath :=
  buildCurvePath { x := sampleBox.right + 16, y := sampleBox.centerY }
    { x := sampleBox.left - 12, y := sampleBox.centerY }

/-- Service `A` whose span points at the service id `ghost`, which is not in
the input service list. -/
def svcGhostTarget : TraceServiceNode :=
  { id := "A", label := "A",
    spans := [{ id := "S1", label := "s1", outboundServiceId := some "ghost" }] }

/-- A geometry state carrying a (stale) box under the key `ghost`. -/
def geomGhost : GeometryState :=
  { services := [("ghost", sampleBox)], spans := [("A:S1", sampleBox)],
    viewport := none }

/-- A service whose metrics are present with `avgLatencyMs = 0` and
`throughputRps = 0`. -/
def zeroMetricsService : TraceServiceNode :=
  { id := "A", label := "A", spans := [],
    metrics := some { avgLatencyMs := some 0, errorRatePct := none,
                      throughputRps := some 0 } }

/-- A concrete host rectangle. -/
def sampleHostRect : MeasuredRect :=
  { left := 0, right := 800, top := 0, bottom := 600, width := 800, height := 600 }

/-- A published snapshot whose geometry already equals what the next measure
pass computes from `sampleHostRect` with no services. -/
def samplePublished : PublishedGeometry :=
  { geom := measureGeometry [] ∅ sampleHostRect [] [], generation := 0 }

/-- A concrete drag record: pointer 1 captured on node `n` starting at the
client origin with node origin (0, 0). -/
def sampleDrag : DragState :=
  { id := "n", pointerId := 1, startX := 0, startY := 0, originX := 0,
    originY := 0, moved := false }

/-- The directed edge relation of an edge list: `EdgeRel edges a b` holds
when some edge goes from `a` to `b`. -/
def EdgeRel (edges : List TraceEdge) (a b : String) : Prop :=
  ∃ e ∈ edges, e.fromId = a ∧ e.toId = b

/-- Acyclicity of the directed edge relation: no id reaches itself through a
nonempty chain of edges. -/
def Acyclic (edges : List TraceEdge) : Prop :=
  ∀ a, ¬ Relation.TransGen (EdgeRel edges) a a

/-- Every entry of the memo map `m` persists, with its value, in `m'`. -/
def MemoExtends (m m' : LevelMemo) : Prop :=
  ∀ id v, lookupStr m id = some v → lookupStr m' id = some v

/-- The fixed-point property of a memo map that C1 asserts: a memoized id
with no incoming edges has level 0, and a memoized id with incoming edges
has all its parents memoized and its level equal to `Math.max` over the
parents' memoized levels plus one. -/
def MemoConsistent (edges : List TraceEdge) (m : LevelMemo) : Prop :=
  ∀ id v, lookupStr m id = some v →
    (incomingList edges id = [] → v = 0) ∧
    (incomingList edges id ≠ [] →
      (∀ p ∈ incomingList edges id, ∃ w, lookupStr m p = some w) ∧
      v = maxOfList ((incomingList edges id).map
            (fun p => (lookupStr m p).getD 0 + 1)))

/-! Helper lemmas. -/

/-- A successful lookup exhibits the key-value pair in the list. -/
theorem lookupStr_mem {β : Type} {l : List (String × β)} {k : String} {v : β}
    (h : lookupStr l k = some v) : (k, v) ∈ l := by
  induction l with
  | nil => simp [lookupStr] at h
  | cons p rest ih =>
    rw [lookupStr] at h
    split at h
    · rename_i heq
      obtain rfl := heq
      obtain rfl : p.2 = v := by simpa using h
      exact List.mem_cons_self _ _
    · exact List.mem_cons_of_mem _ (ih h)

/-! Claim theorems. -/

/-- C10: a single toggleService adds the id when absent, removes it when
present, and toggling twice returns the expanded set to exactly the original
set. -/
theorem c10_toggleService_involution (E : Finset String) (s : String) :
    (s ∉ E → toggleService s E = insert s E) ∧
    (s ∈ E → toggleService s E = E.erase s) ∧
    toggleService s (toggleService s E) = E := by
  refine ⟨fun h => by simp [toggleService, h], fun h => by simp [toggleService, h], ?_⟩
  by_cases h : s ∈ E
  · have h1 : toggleService s E = E.erase s := by simp [toggleService, h]
    rw [h1, toggleService, if_neg (Finset.not_mem_erase s E)]
    exact Finset.insert_erase h
  · have h1 : toggleService s E = insert s E := by simp [toggleService, h]
    rw [h1, toggleService, if_pos (Finset.mem_insert_self s E)]
    exact Finset.erase_insert h

/-- Witness for C10 at the empty set and id `a`. -/
theorem c10_toggleService_involution_witness :
    toggleService "a" (∅ : Finset String) = insert "a" ∅ ∧
    toggleService "a" (toggleService "a" (∅ : Finset String)) = ∅ :=
  ⟨(c10_toggleService_involution ∅ "a").1 (by simp),
   (c10_toggleService_involution ∅ "a").2.2⟩

/-- C3 counterexample: the edge (A, B) given twice with no explicit ids and
both boxes present yields TWO built connectors with id `A->B`, not one -
serviceEdges performs no deduplication. -/
theorem c3_counterexample :
    ((serviceEdges
        [{ fromId := "A", toId := "B" }, { fromId := "A", toId := "B" }]
        [("A", sampleBox), ("B", sampleBox)]).map (fun c => c.id))
      = ["A->B", "A->B"] ∧
    ((serviceEdges
        [{ fromId := "A", toId := "B" }, { fromId := "A", toId := "B" }]
        [("A", sampleBox), ("B", sampleBox)]).length ≠ 1) := by
  constructor
  · rfl
  · decide

/-- C3 amended: duplicate edges are NOT collapsed - the built connector list
contains one connector per input occurrence, so the pair (A, B) given twice
with no explicit ids yields exactly two connectors, both with id `A->B`
(first occurrence does not win; nothing is dropped). -/
theorem c3_amended (A B : String) (g : List (String × Box)) (bA bB : Box)
    (hA : lookupStr g A = some bA) (hB : lookupStr g B = some bB) :
    ((serviceEdges [{ fromId := A, toId := B }, { fromId := A, toId := B }] g).map
        (fun c => c.id))
      = [A ++ "->" ++ B, A ++ "->" ++ B] := by
  simp [serviceEdges, hA, hB, Option.getD]

/-- Witness for C3 amended with the sample geometry. -/
theorem c3_amended_witness :
    ((serviceEdges [{ fromId := "A", toId := "B" }, { fromId := "A", toId := "B" }]
        [("A", sampleBox), ("B", sampleBox)]).map (fun c => c.id))
      = ["A->B", "A->B"] :=
  c3_amended "A" "B" [("A", sampleBox), ("B", sampleBox)] sampleBox sampleBox
    (by decide) (by decide)

/-- C9 counterexample: `avgLatencyMs = 0` is present, yet the metadata line
renders the `latency n/a` placeholder (the source tests the number for JS
truthiness, not for presence); likewise `throughputRps = 0` is present but
not rendered. -/
theorem c9_counterexample :
    (zeroMetricsService.metrics.map Metrics.avgLatencyMs) = some (some 0) ∧
    (zeroMetricsService.metrics.map Metrics.throughputRps) = some (some 0) ∧
    serviceMetaLatency zeroMetricsService = .na ∧
    serviceMetaThroughput zeroMetricsService = none := by
  refine ⟨rfl, rfl, ?_, ?_⟩ <;>
    simp [serviceMetaLatency, serviceMetaThroughput, zeroMetricsService]

/-- C9 amended: with metrics present, the latency text is the formatted
number exactly when `avgLatencyMs` is present AND nonzero (JS truthiness),
the placeholder exactly when it is absent or zero; the throughput number is
rendered exactly when `throughputRps` is present and nonzero. -/
theorem c9_amended (svc : TraceServiceNode) (m : Metrics)
    (h : svc.metrics = some m) :
    (∀ v : ℚ, serviceMetaLatency svc = .shown v ↔
      (m.avgLatencyMs = some v ∧ v ≠ 0)) ∧
    (serviceMetaLatency svc = .na ↔
      (m.avgLatencyMs = none ∨ m.avgLatencyMs = some 0)) ∧
    (∀ v : ℚ, serviceMetaThroughput svc = some v ↔
      (m.throughputRps = some v ∧ v ≠ 0)) := by
  refine ⟨fun v => ?_, ?_, fun v => ?_⟩
  · rw [serviceMetaLatency, h]
    rcases hm : m.avgLatencyMs with _ | a
    · simp [hm]
    · by_cases ha : a = 0 <;> simp [hm, ha] <;> aesop
  · rw [serviceMetaLatency, h]
    rcases hm : m.avgLatencyMs with _ | a
    · simp [hm]
    · by_cases ha : a = 0 <;> simp [hm, ha]
  · rw [serviceMetaThroughput, h]
    rcases hm : m.throughputRps with _ | a
    · simp [hm]
    · by_cases ha : a = 0 <;> simp [hm, ha] <;> aesop

/-- Witness for C9 amended at a service with latency 5/2 and throughput 1800. -/
theorem c9_amended_witness :
    serviceMetaLatency
        { id := "ingress", label := "Ingress", spans := [],
          metrics := some { avgLatencyMs := some (5 / 2), errorRatePct := none,
                            throughputRps := some 1800 } }
      = .shown (5 / 2) ∧
    serviceMetaThroughput
        { id := "ingress", label := "Ingress", spans := [],
          metrics := some { avgLatencyMs := some (5 / 2), errorRatePct := none,
                            throughputRps := some 1800 } }
      = some 1800 :=
  ⟨((c9_amended _ _ rfl).1 (5 / 2)).mpr ⟨rfl, by norm_num⟩,
   ((c9_amended _ _ rfl).2.2 1800).mpr ⟨rfl, by norm_num⟩⟩

/-- C8 counterexample: during a drag with zoom 1, a pointer move to client
x = 1000 stores position x = 1000 for the dragged node - no clamping is
applied, so for a 100-wide container and a 10-wide node the stored position
lies far outside the container bounds minus the node size. -/
theorem c8_counterexample :
    lookupStr
        (handlePointerMove (some sampleDrag)
          { pointerId := 1, clientX := 1000, clientY := 0 } 1
          [("n", { x := 0, y := 0 })])
        "n"
      = some { x := 1000, y := 0 } ∧
    ¬ ((1000 : ℚ) ≤ 100 - 10) := by
  constructor
  · simp [handlePointerMove, sampleDrag, setPosition, lookupStr]
  · norm_num

/-- C8 amended: a matching pointer-move stores for the dragged node exactly
`origin + (client - start) / zoom`, with no clamping of any kind; all other
nodes' stored positions are unchanged. -/
theorem c8_amended (d : DragState) (ev : PointerEventData) (zoom : ℚ)
    (positions : List (String × Position))
    (h : d.pointerId = ev.pointerId) :
    lookupStr (handlePointerMove (some d) ev zoom positions) d.id
      = some { x := d.originX + (ev.clientX - d.startX) / zoom,
               y := d.originY + (ev.clientY - d.startY) / zoom } ∧
    ∀ k, k ≠ d.id →
      lookupStr (handlePointerMove (some d) ev zoom positions) k
        = lookupStr positions k := by
  constructor
  · simp [handlePointerMove, h, setPosition, lookupStr]
  · intro k hk
    simp [handlePointerMove, h, setPosition, lookupStr, Ne.symm hk]

/-- Witness for C8 amended at the sample drag and a concrete event. -/
theorem c8_amended_witness :
    lookupStr
        (handlePointerMove (some sampleDrag)
          { pointerId := 1, clientX := 30, clientY := 40 } 2
          [("n", { x := 0, y := 0 })])
        "n"
      = some { x := 0 + (30 - 0) / 2, y := 0 + (40 - 0) / 2 } :=
  (c8_amended sampleDrag { pointerId := 1, clientX := 30, clientY := 40 } 2
    [("n", { x := 0, y := 0 })] rfl).1

/-- C7 counterexample: a measure pass whose computed geometry is pointwise
identical to the previously published snapshot still replaces the published
state - `setGeometry` is called unconditionally with a fresh object (a new
generation), so the previous snapshot object is NOT kept. -/
theorem c7_counterexample :
    samplePublished.geom = measureGeometry [] ∅ sampleHostRect [] [] ∧
    (measureStep (some sampleHostRect) [] ∅ [] [] samplePublished).geom
      = samplePublished.geom ∧
    measureStep (some sampleHostRect) [] ∅ [] [] samplePublished
      ≠ samplePublished := by
  refine ⟨rfl, rfl, ?_⟩
  intro hc
  have := congrArg PublishedGeometry.generation hc
  simp [measureStep, samplePublished] at this

/-- C7 amended: the measure pass never keeps the previous snapshot - even
when the computed service boxes, span boxes and viewport are all pointwise
identical to the previous GeometryState, a fresh snapshot object is
published (the generation advances), so downstream recomputation is
triggered on every pass. -/
theorem c7_amended (host : MeasuredRect) (services : List TraceServiceNode)
    (expanded : Finset String)
    (serviceRects spanRects : List (String × MeasuredRect))
    (prev : PublishedGeometry)
    (h : measureGeometry services expanded host serviceRects spanRects = prev.geom) :
    (measureStep (some host) services expanded serviceRects spanRects prev).geom
      = prev.geom ∧
    measureStep (some host) services expanded serviceRects spanRects prev ≠ prev := by
  constructor
  · simpa [measureStep] using h
  · intro hc
    have := congrArg PublishedGeometry.generation hc
    simp [measureStep] at this

/-- Witness for C7 amended at the sample snapshot. -/
theorem c7_amended_witness :
    (measureStep (some sampleHostRect) [] ∅ [] [] samplePublished).geom
      = samplePublished.geom ∧
    measureStep (some sampleHostRect) [] ∅ [] [] samplePublished
      ≠ samplePublished :=
  c7_amended sampleHostRect [] ∅ [] [] samplePublished rfl

/-- C6 counterexample: the span of service A references the service id
`ghost`, which is in no input service list entry; yet with a geometry state
that carries a (stale) box under the key `ghost`, the builder emits the
connector `A:S1->ghost` - the check is against the geometry map, not the
service list. -/
theorem c6_counterexample :
    ((spanConnectorsSimple [svcGhostTarget] {"A"} geomGhost).map fun c => c.id)
      = ["A:S1->ghost"] ∧
    (∀ s ∈ [svcGhostTarget], s.id ≠ "ghost") := by
  constructor
  · rfl
  · decide

/-- C6 amended: provided every service-box key in the geometry state belongs
to the input service list (as holds for geometry produced by the measure
pass), every built connector originates from a span whose outbound service
reference names an existing service; hence a span whose reference names a
service id absent from the list never contributes a connector. -/
theorem c6_amended (services : List TraceServiceNode) (expanded : Finset String)
    (geom : GeometryState)
    (hk : ∀ p ∈ geom.services, ∃ s ∈ services, s.id = p.1) :
    ∀ c ∈ spanConnectorsSimple services expanded geom,
      ∃ svc ∈ services, ∃ span ∈ svc.spans, ∃ target,
        span.outboundServiceId = some target ∧
        (∃ s ∈ services, s.id = target) ∧
        c.id = svc.id ++ ":" ++ span.id ++ "->" ++ target := by
  intro c hc
  rw [spanConnectorsSimple, List.mem_flatMap] at hc
  obtain ⟨svc, hsvc, hc⟩ := hc
  by_cases hexp : svc.id ∈ expanded
  · rw [if_pos hexp, List.mem_filterMap] at hc
    obtain ⟨span, hspan, hf⟩ := hc
    rcases hout : span.outboundServiceId with _ | target
    · simp [hout] at hf
    · simp only [hout] at hf
      by_cases hemp : target = ""
      · simp [if_pos hemp] at hf
      · simp only [if_neg hemp] at hf
        rcases hsb : lookupStr geom.spans (makeSpanKey svc.id span.id) with _ | spanBox
        · simp [hsb] at hf
        · rcases htb : lookupStr geom.services target with _ | targetBox
          · simp [hsb, htb] at hf
          · simp only [hsb, htb] at hf
            obtain ⟨s, hs, hsid⟩ := hk (target, targetBox) (lookupStr_mem htb)
            injection hf with hf
            subst hf
            exact ⟨svc, hsvc, span, hspan, target, hout, ⟨s, hs, hsid⟩, rfl⟩
  · rw [if_neg hexp] at hc
    simp at hc

/-- Witness for C6 amended: a two-service list whose geometry keys all come
from the service list; the single built connector targets the existing
service B. -/
theorem c6_amended_witness :
    ∃ svc ∈ [svcBothRefs, svcB], ∃ span ∈ svc.spans, ∃ target,
      span.outboundServiceId = some target ∧
      (∃ s ∈ [svcBothRefs, svcB], s.id = target) ∧
      ({ id := "A:S1->B"
         sourceLabel := "s1"
         path := buildCurvePath
           { x := sampleBox.right + 16, y := sampleBox.centerY }
           { x := sampleBox.left - 16, y := sampleBox.centerY } } : SpanConnector).id
        = svc.id ++ ":" ++ span.id ++ "->" ++ target := by
  refine c6_amended [svcBothRefs, svcB] {"A"} geomBCollapsed (by decide) _ ?_
  have h : spanConnectorsSimple [svcBothRefs, svcB] {"A"} geomBCollapsed
      = [{ id := "A:S1->B"
           sourceLabel := "s1"
           path := buildCurvePath
             { x := sampleBox.right + 16, y := sampleBox.centerY }
             { x := sampleBox.left - 16, y := sampleBox.centerY } }] := rfl
  rw [h]
  exact List.mem_cons_self _ _

/-- pushConnector preserves the identity-set invariant. -/
theorem pushConnector_inv (st : ConnState) (id srcLabel : String) (s e : Point)
    (h : connInv st) : connInv (pushConnector st id srcLabel s e) := by
  rcases h with ⟨h1, h2⟩
  rw [pushConnector]
  split
  · exact ⟨h1, h2⟩
  · rename_i hid
    refine ⟨by simp [h1], ?_⟩
    simp [List.nodup_append, h2, hid]

/-- The pass-1 fallback preserves the identity-set invariant. -/
theorem outgoingServiceFallback_inv (geom : GeometryState) (svcId : String)
    (span : TraceSpan) (spanBox : Box) (st : ConnState) (h : connInv st) :
    connInv (outgoingServiceFallback geom svcId span spanBox st) := by
  rw [outgoingServiceFallback]
  repeat' split
  all_goals first
    | exact h
    | exact pushConnector_inv _ _ _ _ _ h

/-- Pass 1 preserves the identity-set invariant. -/
theorem outgoingSpanStep_inv (geom : GeometryState) (svcId : String)
    (span : TraceSpan) (st : ConnState) (h : connInv st) :
    connInv (outgoingSpanStep geom svcId span st) := by
  rw [outgoingSpanStep]
  repeat' split
  all_goals first
    | exact h
    | exact pushConnector_inv _ _ _ _ _ h
    | exact outgoingServiceFallback_inv _ _ _ _ _ h

/-- Pass 2 preserves the identity-set invariant. -/
theorem incomingSpanStep_inv (expanded : Finset String) (geom : GeometryState)
    (srcSvcId : String) (srcSpan : TraceSpan) (st : ConnState) (h : connInv st) :
    connInv (incomingSpanStep expanded geom srcSvcId srcSpan st) := by
  rw [incomingSpanStep]
  dsimp only
  repeat' split
  all_goals first
    | exact h
    | exact pushConnector_inv _ _ _ _ _ h

/-- Folding any invariant-preserving step preserves the invariant. -/
theorem foldl_connInv {α : Type} (f : ConnState → α → ConnState)
    (hf : ∀ st a, connInv st → connInv (f st a)) :
    ∀ (l : List α) (st : ConnState), connInv st → connInv (l.foldl f st) := by
  intro l
  induction l with
  | nil => intro st h; simpa using h
  | cons a rest ih =>
    intro st h
    rw [List.foldl_cons]
    exact ih _ (hf st a h)

/-- Pass 3 preserves the identity-set invariant. -/
theorem edgeFanStep_inv (services : List TraceServiceNode)
    (expanded : Finset String) (geom : GeometryState) (edge : TraceEdge)
    (st : ConnState) (h : connInv st) :
    connInv (edgeFanStep services expanded geom edge st) := by
  rw [edgeFanStep]
  repeat' split
  all_goals try exact h
  all_goals refine foldl_connInv _ (fun st2 tspan h2 => ?_) _ _ h
  all_goals split
  all_goals first
    | exact h2
    | exact pushConnector_inv _ _ _ _ _ h2

/-- C5 amended: the global identity set enforces at most one connector per
connector id - the built connector list never contains two connectors with
the same id.  (It does NOT enforce one connector per logical link: the same
source-span/target-span pair can appear under two distinct ids, see the
counterexample.) -/
theorem c5_amended (services : List TraceServiceNode) (edges : List TraceEdge)
    (expanded : Finset String) (geom : GeometryState) :
    ((spanConnectorsFull services edges expanded geom).map (fun c => c.id)).Nodup := by
  have h : connInv (spanConnectorsState services edges expanded geom) := by
    rw [spanConnectorsState]
    refine foldl_connInv _ (fun st e h => edgeFanStep_inv _ _ _ _ _ h) _ _ ?_
    refine foldl_connInv _ (fun st svc h => ?_) _ _ ?_
    · exact foldl_connInv _ (fun s2 sp h2 => incomingSpanStep_inv _ _ _ _ _ h2) _ _ h
    refine foldl_connInv _ (fun st svc h => ?_) _ _ ⟨rfl, List.nodup_nil⟩
    split
    · exact foldl_connInv _ (fun st2 span h2 => outgoingSpanStep_inv _ _ _ _ h2) _ _ h
    · exact h
  rw [spanConnectorsFull, h.1]
  exact h.2

/-- C5 counterexample: with A and B expanded and span `A:S1` referencing
span `B:S2`, the builder emits BOTH the outgoing connector `A:S1->B:S2` and
the inbound-aggregation connector `A:S1->B:S2:IN` - two connectors with
identical curves (the same logical link between the same two boxes) under
distinct ids, so the identity set does not enforce one connector per
logical link. -/
theorem c5_counterexample :
    ((spanConnectorsFull [svcRefOnly, svcB] [] {"A", "B"} geomBothExpanded).map
        (fun c => (c.id, c.path)))
      = [("A:S1->B:S2", dupCurve), ("A:S1->B:S2:IN", dupCurve)] ∧
    ("A:S1->B:S2" : String) ≠ "A:S1->B:S2:IN" := by
  constructor
  · rfl
  · decide

/-- C4 counterexample: span S1 of service A carries the outbound span
reference `B:S2` (together with the outbound service id `B`, as every such
span in the sample data does); B is collapsed, so `B:S2` has no geometry.
The builder does NOT emit "no connector at all for S1": it falls back to the
service-level connector `A:S1->B`. -/
theorem c4_counterexample :
    ((spanConnectorsFull [svcBothRefs, svcB] [] {"A"} geomBCollapsed).map
        (fun c => c.id))
      = ["A:S1->B"] := rfl

/-- C4 amended: when span S1 declares only the outbound span reference
`B:S2` and B is collapsed (no geometry for `B:S2`), no connector at all is
built; when S1 also declares an outbound service id whose box exists, the
builder instead falls back to a service-level connector (see the
counterexample).  Once B is expanded (geometry for `B:S2` present), exactly
one connector with id `A:S1->B:S2` appears (alongside a separate
inbound-aggregation connector with the distinct id `A:S1->B:S2:IN`). -/
theorem c4_amended (bA bB bS1 bS2 : Box) :
    spanConnectorsFull [svcRefOnly, svcB] [] {"A"}
      { services := [("A", bA), ("B", bB)], spans := [("A:S1", bS1)],
        viewport := none } = [] ∧
    ((spanConnectorsFull [svcRefOnly, svcB] [] {"A", "B"}
        { services := [("A", bA), ("B", bB)],
          spans := [("A:S1", bS1), ("B:S2", bS2)],
          viewport := none }).map (fun c => c.id))
      = ["A:S1->B:S2", "A:S1->B:S2:IN"] := by
  constructor <;>
    simp [spanConnectorsFull, spanConnectorsState, outgoingSpanStep,
      outgoingServiceFallback, incomingSpanStep, edgeFanStep, pushConnector,
      lookupStr, makeSpanKey, svcRefOnly, svcB, spanRefOnly,
      show splitColon "B:S2" = ["B", "S2"] from rfl]

/-- A nodup list contained in another list is no longer than it. -/
theorem nodup_subset_length_le {l l2 : List String} (h : l.Nodup)
    (hs : l ⊆ l2) : l.length ≤ l2.length := by
  have h1 : l.toFinset.card = l.length := List.toFinset_card_of_nodup h
  have h2 : l.toFinset ⊆ l2.toFinset := by
    intro x hx
    simp only [List.mem_toFinset] at hx ⊢
    exact hs hx
  have h3 : l2.toFinset.card ≤ l2.length := l2.toFinset_card_le
  have h4 := Finset.card_le_card h2
  omega

/-- Membership in the reverse adjacency is exactly the edge relation. -/
theorem mem_incomingList {edges : List TraceEdge} {p id : String} :
    p ∈ incomingList edges id ↔ EdgeRel edges p id := by
  simp only [incomingList, EdgeRel, List.mem_map, List.mem_filter]
  constructor
  · rintro ⟨e, ⟨he, ht⟩, rfl⟩
    exact ⟨e, he, rfl, by simpa using ht⟩
  · rintro ⟨e, he, rfl, ht⟩
    exact ⟨e, ⟨he, by simpa using ht⟩, rfl⟩

/-- An id with an incoming edge is an edge target. -/
theorem mem_edgeTargets_of_incoming {edges : List TraceEdge} {id : String}
    (h : incomingList edges id ≠ []) : id ∈ edgeTargets edges := by
  rcases List.exists_mem_of_ne_nil _ h with ⟨p, hp⟩
  rcases mem_incomingList.mp hp with ⟨e, he, _, ht⟩
  rw [edgeTargets, List.mem_dedup]
  exact List.mem_map.mpr ⟨e, he, ht⟩

/-- Sufficient fuel: computeLevel never runs out of fuel when the fuel
covers the edge targets not yet on the guard stack.  This is the
termination argument: the JS recursion depth is bounded the same way. -/
theorem computeLevel_isSome (edges : List TraceEdge) :
    ∀ (fuel : ℕ) (id : String) (stack : List String) (memo : LevelMemo),
      stack.Nodup → (∀ s ∈ stack, s ∈ edgeTargets edges) →
      (edgeTargets edges).length + 1 ≤ fuel + stack.length →
      (computeLevel edges fuel id stack memo).isSome := by
  intro fuel
  induction fuel with
  | zero =>
    intro id stack memo hnd hsub hb
    exfalso
    have := nodup_subset_length_le hnd hsub
    omega
  | succ fuel ih =>
    have hpar : ∀ (parents stack : List String) (memo : LevelMemo),
        stack.Nodup → (∀ s ∈ stack, s ∈ edgeTargets edges) →
        (edgeTargets edges).length + 1 ≤ fuel + stack.length →
        (computeParents edges fuel parents stack memo).isSome := by
      intro parents
      induction parents with
      | nil => intro stack memo _ _ _; rw [computeParents]; rfl
      | cons p rest ihp =>
        intro stack memo hnd hsub hb
        rw [computeParents]
        rcases Option.isSome_iff_exists.mp (ih p stack memo hnd hsub hb) with
          ⟨⟨v, m1⟩, hv⟩
        rcases Option.isSome_iff_exists.mp (ihp stack m1 hnd hsub hb) with
          ⟨⟨vs, m2⟩, hvs⟩
        simp only [hv, hvs]
        rfl
    intro id stack memo hnd hsub hb
    rw [computeLevel]
    rcases hm : lookupStr memo id with _ | v
    · simp only [hm]
      by_cases hst : id ∈ stack
      · simp [hst]
      · simp only [if_neg hst]
        rcases hinc : incomingList edges id with _ | ⟨p, ps⟩
        · rfl
        · have hidT : id ∈ edgeTargets edges :=
            mem_edgeTargets_of_incoming (by rw [hinc]; simp)
          have hnd2 : (id :: stack).Nodup := List.nodup_cons.mpr ⟨hst, hnd⟩
          have hsub2 : ∀ s ∈ id :: stack, s ∈ edgeTargets edges := by
            intro s hs
            rcases List.mem_cons.mp hs with rfl | hs
            · exact hidT
            · exact hsub s hs
          have hb2 : (edgeTargets edges).length + 1 ≤ fuel + (id :: stack).length := by
            simp only [List.length_cons]
            omega
          rcases Option.isSome_iff_exists.mp
            (hpar (p :: ps) (id :: stack) memo hnd2 hsub2 hb2) with ⟨⟨vals, m1⟩, hv⟩
          simp only [hv]
          rfl
    · simp only [hm]
      rfl

/-- Folding max over nonnegative integers from a nonnegative seed stays
nonnegative. -/
theorem foldl_max_nonneg : ∀ (xs : List ℤ) (a : ℤ), 0 ≤ a →
    (∀ x ∈ xs, 0 ≤ x) → 0 ≤ xs.foldl max a := by
  intro xs
  induction xs with
  | nil => intro a ha _; simpa using ha
  | cons x rest ih =>
    intro a ha hall
    rw [List.foldl_cons]
    exact ih (max a x) (le_trans ha (le_max_left a x))
      (fun y hy => hall y (List.mem_cons_of_mem _ hy))

/-- A nonempty list of nonnegative integers has a nonnegative maximum. -/
theorem maxOfList_nonneg {l : List ℤ} (h : ∀ x ∈ l, 0 ≤ x) :
    0 ≤ maxOfList l := by
  rcases l with _ | ⟨x, xs⟩
  · exact le_refl 0
  · rw [maxOfList]
    exact foldl_max_nonneg xs x (h x (List.mem_cons_self x xs))
      (fun y hy => h y (List.mem_cons_of_mem _ hy))

/-- Every level computeLevel returns or memoizes is nonnegative. -/
theorem computeLevel_nonneg (edges : List TraceEdge) :
    ∀ (fuel : ℕ) (id : String) (stack : List String) (memo : LevelMemo)
      (v : ℤ) (memo' : LevelMemo),
      (∀ q ∈ memo, 0 ≤ q.2) →
      computeLevel edges fuel id stack memo = some (v, memo') →
      0 ≤ v ∧ ∀ q ∈ memo', 0 ≤ q.2 := by
  intro fuel
  induction fuel with
  | zero =>
    intro id stack memo v memo' _ h
    rw [computeLevel] at h
    exact absurd h (by simp)
  | succ fuel ih =>
    have hpar : ∀ (parents stack : List String) (memo : LevelMemo)
        (vals : List ℤ) (memo' : LevelMemo),
        (∀ q ∈ memo, 0 ≤ q.2) →
        computeParents edges fuel parents stack memo = some (vals, memo') →
        (∀ x ∈ vals, 0 ≤ x) ∧ ∀ q ∈ memo', 0 ≤ q.2 := by
      intro parents
      induction parents with
      | nil =>
        intro stack memo vals memo' hm h
        rw [computeParents] at h
        obtain ⟨rfl, rfl⟩ : ([] : List ℤ) = vals ∧ memo = memo' := by
          simpa using h
        exact ⟨by simp, hm⟩
      | cons p rest ihp =>
        intro stack memo vals memo' hm h
        rw [computeParents] at h
        rcases hv : computeLevel edges fuel p stack memo with _ | ⟨v1, m1⟩
        · simp [hv] at h
        · simp only [hv] at h
          rcases hvs : computeParents edges fuel rest stack m1 with _ | ⟨vs, m2⟩
          · simp [hvs] at h
          · simp only [hvs] at h
            obtain ⟨rfl, rfl⟩ : (v1 + 1) :: vs = vals ∧ m2 = memo' := by
              simpa using h
            obtain ⟨hv1, hm1⟩ := ih p stack memo v1 m1 hm hv
            obtain ⟨hvs2, hm2⟩ := ihp stack m1 vs m2 hm1 hvs
            refine ⟨?_, hm2⟩
            intro x hx
            rcases List.mem_cons.mp hx with rfl | hx
            · omega
            · exact hvs2 x hx
    intro id stack memo v memo' hm h
    rw [computeLevel] at h
    rcases hmem : lookupStr memo id with _ | w
    · simp only [hmem] at h
      by_cases hst : id ∈ stack
      · rw [if_pos hst] at h
        obtain ⟨rfl, rfl⟩ : (0 : ℤ) = v ∧ memo = memo' := by simpa using h
        exact ⟨le_refl 0, hm⟩
      · rw [if_neg hst] at h
        rcases hinc : incomingList edges id with _ | ⟨p, ps⟩
        · simp only [hinc] at h
          obtain ⟨rfl, rfl⟩ : (0 : ℤ) = v ∧ (id, (0 : ℤ)) :: memo = memo' := by
            simpa using h
          refine ⟨le_refl 0, ?_⟩
          intro q hq
          rcases List.mem_cons.mp hq with rfl | hq
          · exact le_refl 0
          · exact hm q hq
        · simp only [hinc] at h
          rcases hvals : computeParents edges fuel (p :: ps) (id :: stack) memo with
            _ | ⟨vals, m1⟩
          · simp [hvals] at h
          · simp only [hvals] at h
            obtain ⟨rfl, rfl⟩ :
                maxOfList vals = v ∧ (id, maxOfList vals) :: m1 = memo' := by
              simpa using h
            obtain ⟨hvv, hmm⟩ := hpar (p :: ps) (id :: stack) memo vals m1 hm hvals
            refine ⟨maxOfList_nonneg hvv, ?_⟩
            intro q hq
            rcases List.mem_cons.mp hq with rfl | hq
            · exact maxOfList_nonneg hvv
            · exact hmm q hq
    · simp only [hmem] at h
      obtain ⟨rfl, rfl⟩ : w = v ∧ memo = memo' := by simpa using h
      exact ⟨hm (id, w) (lookupStr_mem hmem), hm⟩

/-- Cons with a different key does not change a lookup. -/
theorem lookupStr_cons_of_ne {β : Type} {m : List (String × β)} {k key : String}
    {v : β} (h : k ≠ key) : lookupStr ((k, v) :: m) key = lookupStr m key := by
  rw [lookupStr, if_neg h]

/-- Cons finds its own key. -/
theorem lookupStr_cons_self {β : Type} (m : List (String × β)) (k : String)
    (v : β) : lookupStr ((k, v) :: m) k = some v := by
  rw [lookupStr, if_pos rfl]

/-- Lookups over a list of keys are unchanged by a cons with a key not among
them. -/
theorem map_lookup_cons_congr {memo : LevelMemo} {id : String} {v : ℤ}
    {l : List String} (h : ∀ p ∈ l, id ≠ p) :
    l.map (fun p => (lookupStr ((id, v) :: memo) p).getD 0 + 1)
      = l.map (fun p => (lookupStr memo p).getD 0 + 1) := by
  apply List.map_congr_left
  intro p hp
  rw [lookupStr_cons_of_ne (h p hp)]

/-- Extending a consistent memo with a fresh entry that itself satisfies the
fixed-point property (with parents distinct from the new key) keeps the memo
consistent. -/
theorem memoConsistent_cons (edges : List TraceEdge) {memo : LevelMemo}
    (hcons : MemoConsistent edges memo) {id : String} {v : ℤ}
    (hfresh : lookupStr memo id = none)
    (hnew : (incomingList edges id = [] → v = 0) ∧
      (incomingList edges id ≠ [] →
        (∀ p ∈ incomingList edges id, p ≠ id ∧ ∃ w, lookupStr memo p = some w) ∧
        v = maxOfList ((incomingList edges id).map
              (fun p => (lookupStr memo p).getD 0 + 1)))) :
    MemoConsistent edges ((id, v) :: memo) := by
  intro k w hkw
  by_cases hk : id = k
  · subst hk
    rw [lookupStr_cons_self] at hkw
    obtain rfl : v = w := by simpa using hkw
    refine ⟨hnew.1, fun hne => ?_⟩
    obtain ⟨hps, hveq⟩ := hnew.2 hne
    constructor
    · intro p hp
      obtain ⟨hpne, w2, hw2⟩ := hps p hp
      exact ⟨w2, by rw [lookupStr_cons_of_ne (Ne.symm hpne)]; exact hw2⟩
    · rw [hveq, map_lookup_cons_congr (fun p hp => Ne.symm (hps p hp).1)]
  · rw [lookupStr_cons_of_ne hk] at hkw
    obtain ⟨h1, h2⟩ := hcons k w hkw
    refine ⟨h1, fun hne => ?_⟩
    obtain ⟨hps, hveq⟩ := h2 hne
    have hpid : ∀ p ∈ incomingList edges k, id ≠ p := by
      intro p hp hh
      obtain ⟨w2, hw2⟩ := hps p hp
      rw [← hh, hfresh] at hw2
      exact Option.noConfusion hw2
    constructor
    · intro p hp
      obtain ⟨w2, hw2⟩ := hps p hp
      exact ⟨w2, by rw [lookupStr_cons_of_ne (hpid p hp)]; exact hw2⟩
    · rw [hveq, map_lookup_cons_congr hpid]

/-- The central correctness lemma for C1: under an acyclic edge relation,
every successful computeLevel run extends the memo conservatively, keeps
guard-stack ids unmemoized, preserves the fixed-point property of the memo,
and memoizes the returned level for the queried id. -/
theorem computeLevel_spec (edges : List TraceEdge) (hacyc : Acyclic edges) :
    ∀ (fuel : ℕ) (id : String) (stack : List String) (memo : LevelMemo)
      (v : ℤ) (memo' : LevelMemo),
      computeLevel edges fuel id stack memo = some (v, memo') →
      (∀ s ∈ stack, Relation.TransGen (EdgeRel edges) id s) →
      (∀ s ∈ stack, lookupStr memo s = none) →
      MemoConsistent edges memo →
      MemoExtends memo memo' ∧ (∀ s ∈ stack, lookupStr memo' s = none) ∧
      MemoConsistent edges memo' ∧ lookupStr memo' id = some v := by
  intro fuel
  induction fuel with
  | zero =>
    intro id stack memo v memo' h
    rw [computeLevel] at h
    simp at h
  | succ fuel ih =>
    have hpar : ∀ (parents stack : List String) (memo : LevelMemo)
        (vals : List ℤ) (memo' : LevelMemo),
        computeParents edges fuel parents stack memo = some (vals, memo') →
        (∀ p ∈ parents, ∀ s ∈ stack, Relation.TransGen (EdgeRel edges) p s) →
        (∀ s ∈ stack, lookupStr memo s = none) →
        MemoConsistent edges memo →
        MemoExtends memo memo' ∧ (∀ s ∈ stack, lookupStr memo' s = none) ∧
        MemoConsistent edges memo' ∧
        (∀ p ∈ parents, ∃ w, lookupStr memo' p = some w) ∧
        vals = parents.map (fun p => (lookupStr memo' p).getD 0 + 1) := by
      intro parents
      induction parents with
      | nil =>
        intro stack memo vals memo' h _ hfr hcons
        rw [computeParents] at h
        obtain ⟨rfl, rfl⟩ : ([] : List ℤ) = vals ∧ memo = memo' := by simpa using h
        exact ⟨fun _ _ hh => hh, hfr, hcons, by simp, by simp⟩
      | cons p rest ihp =>
        intro stack memo vals memo' h hch hfr hcons
        rw [computeParents] at h
        rcases hv : computeLevel edges fuel p stack memo with _ | ⟨v1, m1⟩
        · simp [hv] at h
        · simp only [hv] at h
          rcases hvs : computeParents edges fuel rest stack m1 with _ | ⟨vs, m2⟩
          · simp [hvs] at h
          · simp only [hvs] at h
            obtain ⟨rfl, rfl⟩ : (v1 + 1) :: vs = vals ∧ m2 = memo' := by
              simpa using h
            obtain ⟨hext1, hfr1, hcons1, hlook1⟩ :=
              ih p stack memo v1 m1 hv (hch p (List.mem_cons_self p rest)) hfr hcons
            obtain ⟨hext2, hfr2, hcons2, hlooks2, hvals2⟩ :=
              ihp stack m1 vs m2 hvs
                (fun q hq s hs => hch q (List.mem_cons_of_mem _ hq) s hs) hfr1 hcons1
            refine ⟨fun a b hb => hext2 a b (hext1 a b hb), hfr2, hcons2, ?_, ?_⟩
            · intro q hq
              rcases List.mem_cons.mp hq with rfl | hq
              · exact ⟨v1, hext2 _ _ hlook1⟩
              · exact hlooks2 q hq
            · rw [List.map_cons, ← hvals2]
              have hpm2 : lookupStr m2 p = some v1 := hext2 _ _ hlook1
              simp [hpm2]
    intro id stack memo v memo' h hch hfr hcons
    rw [computeLevel] at h
    rcases hmem : lookupStr memo id with _ | w
    · simp only [hmem] at h
      by_cases hst : id ∈ stack
      · exact absurd (hch id hst) (hacyc id)
      · rw [if_neg hst] at h
        rcases hinc : incomingList edges id with _ | ⟨p, ps⟩
        · simp only [hinc] at h
          obtain ⟨rfl, rfl⟩ : (0 : ℤ) = v ∧ (id, (0 : ℤ)) :: memo = memo' := by
            simpa using h
          refine ⟨?_, ?_, ?_, lookupStr_cons_self _ _ _⟩
          · intro a b hb
            have hne : id ≠ a := by
              intro hh
              rw [← hh, hmem] at hb
              exact Option.noConfusion hb
            rw [lookupStr_cons_of_ne hne]
            exact hb
          · intro s hs
            have hne : id ≠ s := fun hh => hst (hh ▸ hs)
            rw [lookupStr_cons_of_ne hne]
            exact hfr s hs
          · exact memoConsistent_cons edges hcons hmem
              ⟨fun _ => rfl, fun hne => absurd hinc hne⟩
        · simp only [hinc] at h
          rcases hvals : computeParents edges fuel (p :: ps) (id :: stack) memo with
            _ | ⟨vals, m1⟩
          · simp [hvals] at h
          · simp only [hvals] at h
            obtain ⟨rfl, rfl⟩ :
                maxOfList vals = v ∧ (id, maxOfList vals) :: m1 = memo' := by
              simpa using h
            have hch2 : ∀ q ∈ p :: ps, ∀ s ∈ id :: stack,
                Relation.TransGen (EdgeRel edges) q s := by
              intro q hq s hs
              have hqid : EdgeRel edges q id :=
                mem_incomingList.mp (by rw [hinc]; exact hq)
              rcases List.mem_cons.mp hs with rfl | hs
              · exact Relation.TransGen.single hqid
              · exact Relation.TransGen.head hqid (hch s hs)
            have hfr2 : ∀ s ∈ id :: stack, lookupStr memo s = none := by
              intro s hs
              rcases List.mem_cons.mp hs with rfl | hs
              · exact hmem
              · exact hfr s hs
            obtain ⟨hext1, hfr1, hcons1, hlooks1, hvals1⟩ :=
              hpar (p :: ps) (id :: stack) memo vals m1 hvals hch2 hfr2 hcons
            have hid1 : lookupStr m1 id = none := hfr1 id (List.mem_cons_self _ _)
            refine ⟨?_, ?_, ?_, lookupStr_cons_self _ _ _⟩
            · intro a b hb
              have hne : id ≠ a := by
                intro hh
                rw [← hh, hmem] at hb
                exact Option.noConfusion hb
              rw [lookupStr_cons_of_ne hne]
              exact hext1 a b hb
            · intro s hs
              have hne : id ≠ s := fun hh => hst (hh ▸ hs)
              rw [lookupStr_cons_of_ne hne]
              exact hfr1 s (List.mem_cons_of_mem _ hs)
            · apply memoConsistent_cons edges hcons1 hid1
              refine ⟨fun hnil => absurd hinc (by rw [hnil]; simp), fun _ => ?_⟩
              constructor
              · intro q hq
                have hqinc : q ∈ incomingList edges id := hq
                have hqid : EdgeRel edges q id := mem_incomingList.mp hqinc
                have hqne : q ≠ id := by
                  intro hh
                  subst hh
                  exact absurd (Relation.TransGen.single hqid) (hacyc q)
                refine ⟨hqne, ?_⟩
                exact hlooks1 q (by rw [← hinc]; exact hqinc)
              · rw [hinc, hvals1]
    · simp only [hmem] at h
      obtain ⟨rfl, rfl⟩ : w = v ∧ memo = memo' := by simpa using h
      exact ⟨fun _ _ hh => hh, hfr, hcons, hmem⟩

/-- Adding one to every element commutes with the running maximum. -/
theorem foldl_max_map_add_one : ∀ (xs : List ℤ) (a : ℤ),
    (xs.map (fun x => x + 1)).foldl max (a + 1) = xs.foldl max a + 1 := by
  intro xs
  induction xs with
  | nil => intro a; simp
  | cons x rest ih =>
    intro a
    rw [List.map_cons, List.foldl_cons, List.foldl_cons, max_add_add_right, ih]

/-- `Math.max` of the parent levels plus one is one plus `Math.max` of the
parent levels, for a nonempty list. -/
theorem maxOfList_map_add_one {l : List ℤ} (h : l ≠ []) :
    maxOfList (l.map (fun x => x + 1)) = 1 + maxOfList l := by
  rcases l with _ | ⟨x, xs⟩
  · exact absurd rfl h
  · rw [List.map_cons, maxOfList, maxOfList, foldl_max_map_add_one, add_comm]

/-- The per-service loop of serviceLevels, with the accumulated pairs and
memo generalized: it succeeds, keeps the memo consistent, and records a
memoized level for every service. -/
theorem serviceLevels_loop (edges : List TraceEdge) (hacyc : Acyclic edges) :
    ∀ (svcs : List TraceServiceNode) (acc : List (String × ℤ)) (memo : LevelMemo),
      MemoConsistent edges memo →
      ∃ lvls M,
        svcs.foldlM
          (fun a svc => (computeLevel edges (levelFuel edges) svc.id [] a.2).map
            (fun r => (a.1 ++ [(svc.id, r.1)], r.2))) (acc, memo) = some (lvls, M) ∧
        MemoConsistent edges M ∧ MemoExtends memo M ∧
        (∀ q ∈ acc, q ∈ lvls) ∧
        (∀ svc ∈ svcs, ∃ v, (svc.id, v) ∈ lvls ∧ lookupStr M svc.id = some v) := by
  intro svcs
  induction svcs with
  | nil =>
    intro acc memo hcons
    exact ⟨acc, memo, rfl, hcons, fun _ _ hh => hh, fun q h => h, by simp⟩
  | cons svc rest ih =>
    intro acc memo hcons
    have htot := computeLevel_isSome edges (levelFuel edges) svc.id [] memo
      List.nodup_nil (by simp) (by simp [levelFuel])
    rcases Option.isSome_iff_exists.mp htot with ⟨⟨v, m1⟩, hv⟩
    obtain ⟨hext1, _, hcons1, hlook1⟩ :=
      computeLevel_spec edges hacyc (levelFuel edges) svc.id [] memo v m1 hv
        (by simp) (by simp) hcons
    obtain ⟨lvls, M, hfold, hconsM, hextM, haccM, hrestM⟩ :=
      ih (acc ++ [(svc.id, v)]) m1 hcons1
    refine ⟨lvls, M, ?_, hconsM, ?_, ?_, ?_⟩
    · rw [List.foldlM_cons, hv]
      simpa using hfold
    · exact fun a b hb => hextM a b (hext1 a b hb)
    · intro q hq
      exact haccM q (List.mem_append_left _ hq)
    · intro s hs
      rcases List.mem_cons.mp hs with rfl | hs
      · exact ⟨v, haccM _ (List.mem_append_right _ (List.mem_singleton_self _)), hextM _ _ hlook1⟩
      · exact hrestM s hs

/-- The per-service loop of serviceLevels terminates for every input, cycles
included, and yields nonnegative levels throughout. -/
theorem serviceLevels_loop_total (edges : List TraceEdge) :
    ∀ (svcs : List TraceServiceNode) (acc : List (String × ℤ)) (memo : LevelMemo),
      (∀ q ∈ memo, 0 ≤ q.2) → (∀ q ∈ acc, 0 ≤ q.2) →
      ∃ lvls M,
        svcs.foldlM
          (fun a svc => (computeLevel edges (levelFuel edges) svc.id [] a.2).map
            (fun r => (a.1 ++ [(svc.id, r.1)], r.2))) (acc, memo) = some (lvls, M) ∧
        (∀ q ∈ acc, q ∈ lvls) ∧
        (∀ svc ∈ svcs, ∃ v, (svc.id, v) ∈ lvls) ∧
        (∀ q ∈ lvls, 0 ≤ q.2) := by
  intro svcs
  induction svcs with
  | nil =>
    intro acc memo _ hacc
    exact ⟨acc, memo, rfl, fun q h => h, by simp, hacc⟩
  | cons svc rest ih =>
    intro acc memo hmemo hacc
    have htot := computeLevel_isSome edges (levelFuel edges) svc.id [] memo
      List.nodup_nil (by simp) (by simp [levelFuel])
    rcases Option.isSome_iff_exists.mp htot with ⟨⟨v, m1⟩, hv⟩
    obtain ⟨hv0, hm1⟩ := computeLevel_nonneg edges (levelFuel edges) svc.id [] memo
      v m1 hmemo hv
    have hacc1 : ∀ q ∈ acc ++ [(svc.id, v)], 0 ≤ q.2 := by
      intro q hq
      rcases List.mem_append.mp hq with hq | hq
      · exact hacc q hq
      · obtain rfl := List.mem_singleton.mp hq
        exact hv0
    obtain ⟨lvls, M, hfold, haccM, hrestM, hlvls⟩ :=
      ih (acc ++ [(svc.id, v)]) m1 hm1 hacc1
    refine ⟨lvls, M, ?_, ?_, ?_, hlvls⟩
    · rw [List.foldlM_cons, hv]
      simpa using hfold
    · intro q hq
      exact haccM q (List.mem_append_left _ hq)
    · intro s hs
      rcases List.mem_cons.mp hs with rfl | hs
      · exact ⟨v, haccM _ (List.mem_append_right _ (List.mem_singleton_self _))⟩
      · exact hrestM s hs

/-- The empty edge list is acyclic. -/
theorem acyclic_nil : Acyclic [] := by
  have hnone : ∀ a b : String, ¬ Relation.TransGen (EdgeRel []) a b := by
    intro a b h
    induction h with
    | single h => rcases h with ⟨e, he, _⟩; simp at he
    | tail _ h _ => rcases h with ⟨e, he, _⟩; simp at he
  exact fun a => hnone a a

/-- C1: for an acyclic edge relation, the level assignment of
buildInitialPositions succeeds and satisfies the claimed fixed point: every
service receives a memoized level; an id with no incoming edges (in
particular a service in no edge at all) has level 0; an id with incoming
edges has all parents leveled and its level is one plus the maximum of the
parents' levels. -/
theorem c1_levels (services : List TraceServiceNode) (edges : List TraceEdge)
    (hacyc : Acyclic edges) :
    ∃ lvls M, serviceLevels services edges = some (lvls, M) ∧
      (∀ svc ∈ services, ∃ v, (svc.id, v) ∈ lvls ∧ lookupStr M svc.id = some v) ∧
      (∀ id v, lookupStr M id = some v → incomingList edges id = [] → v = 0) ∧
      (∀ id v, lookupStr M id = some v → incomingList edges id ≠ [] →
        (∀ p ∈ incomingList edges id, ∃ w, lookupStr M p = some w) ∧
        v = 1 + maxOfList ((incomingList edges id).map
              (fun p => (lookupStr M p).getD 0))) := by
  have hcons0 : MemoConsistent edges [] := by
    intro id v h
    rw [lookupStr] at h
    exact Option.noConfusion h
  obtain ⟨lvls, M, hfold, hconsM, _, _, hsvcs⟩ :=
    serviceLevels_loop edges hacyc services [] [] hcons0
  refine ⟨lvls, M, ?_, hsvcs, ?_, ?_⟩
  · rw [serviceLevels]
    exact hfold
  · exact fun id v hv hinc => (hconsM id v hv).1 hinc
  · intro id v hv hne
    obtain ⟨hpar, heq⟩ := (hconsM id v hv).2 hne
    refine ⟨hpar, ?_⟩
    rw [heq]
    have hmm : (incomingList edges id).map (fun p => (lookupStr M p).getD 0 + 1)
        = ((incomingList edges id).map (fun p => (lookupStr M p).getD 0)).map
            (fun x => x + 1) := by
      rw [List.map_map]
      rfl
    rw [hmm, maxOfList_map_add_one (by simpa using hne)]

/-- Witness for C1 at one service and no edges. -/
theorem c1_levels_witness :
    ∃ lvls M,
      serviceLevels [{ id := "A", label := "A", spans := [] }] [] = some (lvls, M) ∧
      (∀ svc ∈ [({ id := "A", label := "A", spans := [] } : TraceServiceNode)],
        ∃ v, (svc.id, v) ∈ lvls ∧ lookupStr M svc.id = some v) ∧
      (∀ id v, lookupStr M id = some v → incomingList [] id = [] → v = 0) ∧
      (∀ id v, lookupStr M id = some v → incomingList [] id ≠ [] →
        (∀ p ∈ incomingList [] id, ∃ w, lookupStr M p = some w) ∧
        v = 1 + maxOfList ((incomingList [] id).map
              (fun p => (lookupStr M p).getD 0))) :=
  c1_levels [{ id := "A", label := "A", spans := [] }] [] acyclic_nil

/-- C2: for every service list and edge list, cycles included, the level
computation terminates (the fuel covering the modelled recursion depth never
runs out) and assigns a nonnegative level to every service. -/
theorem c2_termination (services : List TraceServiceNode)
    (edges : List TraceEdge) :
    ∃ lvls M, serviceLevels services edges = some (lvls, M) ∧
      (∀ svc ∈ services, ∃ v, (svc.id, v) ∈ lvls) ∧
      (∀ q ∈ lvls, 0 ≤ q.2) := by
  obtain ⟨lvls, M, hfold, _, hsvcs, hnn⟩ :=
    serviceLevels_loop_total edges services [] [] (by simp) (by simp)
  refine ⟨lvls, M, ?_, hsvcs, hnn⟩
  rw [serviceLevels]
  exact hfold
